import Mathlib

/-!
Shallow embedding of the catalog/index engine of `src/main.js`
(classes `FileContentExtractor` and `EnhancedHybridFileDB`).

Modelling conventions:
* JS strings are Lean `String`s; all character-level operations work on the
  underlying `List Char` so that every definition reduces in the kernel.
* `String.prototype.toLowerCase` is modelled ASCII-only (`Char.toLower`),
  which is exact on the ASCII inputs the claims quantify over.
* JS numbers holding sizes, counts, timestamps are `Nat` (they are
  non-negative integers in every relevant code path); `mtime`/`birthtime`
  instants are `Int`.
* `Date.now()` is passed in explicitly as a `now : Nat` parameter;
  filesystem reads (`fs.readFile`, `fs.stat`) and `JSON.parse` are external
  effects and are passed in as explicit outcome parameters.
* The program never throws out of the modelled components (every handler
  catches), so functions are total rather than `Except`-valued.
-/

/-- `String.mk` is inverse to `String.data`. -/
theorem stringMkData (s : String) : String.mk s.data = s := by
  cases s
  rfl

/-- `text.toLowerCase()` (ASCII model): lower-case every character. -/
def jsToLower (s : String) : String :=
  String.mk (s.data.map Char.toLower)

/-- `hay.includes(needle)` for JS strings: substring containment
(equality included). -/
def jsIncludes (hay needle : String) : Bool :=
  decide (needle.data <:+: hay.data)

/-- `s.startsWith(pre)` for JS strings. -/
def jsStartsWith (s pre : String) : Bool :=
  pre.data.isPrefixOf s.data

/-- `stored.toLowerCase().startsWith(root.toLowerCase())` — the
case-insensitive prefix test used by `addScan`'s replace-by-prefix step
(src/main.js lines 319-321 and 327-329). -/
def prefixCI (root stored : String) : Bool :=
  jsStartsWith (jsToLower stored) (jsToLower root)

/-- `s.trim()` for JS strings: strip whitespace from both ends. -/
def jsTrim (s : String) : String :=
  String.mk (((s.data.dropWhile Char.isWhitespace).reverse.dropWhile
    Char.isWhitespace).reverse)

/-- Characters kept by the tokenizer's `[^\w\s가-힣]` replacement
(src/main.js line 230): JS word characters (`[A-Za-z0-9_]`) and Hangul
syllables; every other non-whitespace character becomes a separator. -/
def tokenChar (c : Char) : Bool :=
  c.isAlphanum || c = '_' || (0xAC00 ≤ c.toNat && c.toNat ≤ 0xD7A3)

/-- Maximal runs of characters satisfying `p` (accumulator-based so that it
is structural and kernel-reducible). -/
def splitRunsAux (p : Char → Bool) : List Char → List Char → List (List Char)
  | [], cur => if cur = [] then [] else [cur.reverse]
  | c :: cs, cur =>
    if p c then splitRunsAux p cs (c :: cur)
    else if cur = [] then splitRunsAux p cs []
    else cur.reverse :: splitRunsAux p cs []

/-- Maximal runs of characters satisfying `p`. -/
def splitRuns (p : Char → Bool) (l : List Char) : List (List Char) :=
  splitRunsAux p l []

/-- The tokenization of `indexText` (src/main.js lines 229-232):
lower-case, replace every character outside `\w`/whitespace/Hangul with a
space, split on whitespace runs, keep tokens of length ≥ 2.  Splitting the
lower-cased text into maximal `tokenChar` runs is exactly that composite:
kept non-whitespace characters are the `tokenChar`s, and both whitespace
and replaced characters separate runs. -/
def tokenizeJs (text : String) : List String :=
  ((splitRuns tokenChar (jsToLower text).data).map String.mk).filter
    (fun w => 2 ≤ w.length)

/-- `word.substring(i, i + 3)` for all `0 ≤ i ≤ word.length - 3`: the
sliding 3-character windows registered by the substring-indexing loop of
`indexText` (src/main.js lines 242-252). -/
def windows3 (w : String) : List String :=
  (List.range (w.length - 2)).map (fun j => String.mk ((w.data.drop j).take 3))

/-- `path.basename(p)` (win32 model: both `\` and `/` separate). -/
def basenameJs (p : String) : String :=
  String.mk ((p.data.reverse.takeWhile (fun c => ¬(c = '\\' ∨ c = '/'))).reverse)

/-- Position of the last `.` in a character list, if any. -/
def lastDotIdx (cs : List Char) : Option Nat :=
  match cs.reverse.findIdx? (fun c => c = '.') with
  | none => none
  | some k => some (cs.length - 1 - k)

/-- `path.extname(p)`: the suffix of the basename starting at its last `.`;
empty when there is no dot, when the dot leads the basename (dotfiles), or
when the basename is all dots (`.` / `..`). -/
def extnameJs (p : String) : String :=
  let base := (basenameJs p).data
  match lastDotIdx base with
  | none => ""
  | some 0 => ""
  | some i => if base.all (fun c => c = '.') then "" else String.mk (base.drop i)

/-- `content.split(/\s+/).length` (the `wordCount` computation of
`extractTextContent`, src/main.js line 75): number of split pieces,
counting the empty leading/trailing pieces JS produces when the string
starts/ends with whitespace. -/
def wordCountJs (s : String) : Nat :=
  match s.data with
  | [] => 1
  | c :: cs =>
    (splitRuns (fun ch => !ch.isWhitespace) (c :: cs)).length
      + (if c.isWhitespace then 1 else 0)
      + (if ((c :: cs).getLast (by simp)).isWhitespace then 1 else 0)

/-! ## Data model (src/main.js: `FileContentExtractor`, `EnhancedHybridFileDB`) -/

/-- One entry of the raw file list the directory walk hands to `addScan`
(`{name, path, isDirectory, size, modified, created}`). -/
structure RawFile where
  name : String
  path : String
  isDirectory : Bool
  size : Nat
  modified : Int
  created : Int
deriving DecidableEq, Repr

/-- Result object of `FileContentExtractor.extractContent`; fields absent
on some code paths carry the defaults `addScan` substitutes via
`|| ''` / `|| false` / `|| 0` (src/main.js lines 286-290). -/
structure ExtractResult where
  title : String := ""
  content : String := ""
  extractable : Bool := false
  contentLength : Nat := 0
  wordCount : Nat := 0
  reason : String := ""
deriving DecidableEq, Repr

/-- A stored FileRecord: the raw fields plus the enhancement `addScan`
adds (src/main.js lines 281-292). -/
structure FileRecord where
  name : String
  path : String
  isDirectory : Bool
  size : Nat
  modified : Int
  created : Int
  scanId : Nat
  extension : String
  title : String
  content : String
  extractable : Bool
  contentLength : Nat
  wordCount : Nat
  extractionReason : String
  addedAt : Nat
deriving DecidableEq, Repr

/-- A Scan row (src/main.js lines 306-316).  `scanDate` is stored as an
ISO string in the code and compared through `new Date(...)`; it is
modelled by the underlying timestamp ordered as a `Nat`. -/
structure Scan where
  id : Nat
  drivePath : String
  scanDate : Nat
  totalFiles : Nat
  totalFolders : Nat
  totalSize : Nat
  extractableFiles : Nat
  totalContentLength : Nat
  scanDuration : Nat
deriving DecidableEq, Repr

/-- The durable catalog `this.data = { scans, files }`. -/
structure DB where
  scans : List Scan
  files : List FileRecord
deriving DecidableEq, Repr

/-! ## Content extractor (src/main.js lines 10-148) -/

/-- The text-extension allow-list (src/main.js lines 13-18). -/
def textExtensions : List String :=
  [".txt", ".md", ".js", ".ts", ".jsx", ".tsx", ".html", ".htm", ".css",
   ".json", ".xml", ".yml", ".yaml", ".ini", ".cfg", ".log", ".sql",
   ".py", ".java", ".cpp", ".c", ".h", ".cs", ".php", ".rb", ".go",
   ".sh", ".bat", ".ps1", ".vue", ".svelte", ".scss", ".less"]

/-- The title-only (document) extension list (src/main.js lines 21-23). -/
def titleExtensions : List String :=
  [".pdf", ".doc", ".docx", ".xls", ".xlsx", ".ppt", ".pptx"]

/-- `this.maxFileSize` = 5 MiB. -/
def maxFileSize : Nat := 5 * 1024 * 1024

/-- `this.maxContentLength` = 100 KiB. -/
def maxContentLength : Nat := 100 * 1024

/-- Outcome of the external `fs.readFile(filePath, 'utf8')` call:
success with the decoded text, failure with `error.code === 'EISDIR'`,
or any other failure (binary content, encoding, permissions ...). -/
inductive ReadOutcome where
  | success (content : String)
  | eisdir
  | failure
deriving DecidableEq, Repr

/-- Outcome of the external `fs.stat` call used by
`extractDocumentTitle`. -/
inductive StatOutcome where
  | success (size : Nat) (mtimeIso : String)
  | failure (msg : String)
deriving DecidableEq, Repr

/-- The fields `extractTitleFromContent` probes on a successfully parsed
JSON document (`json.title`, `json.name`, `json.displayName`). -/
structure Jsonish where
  title : Option String := none
  name : Option String := none
  displayName : Option String := none
deriving DecidableEq, Repr

/-- JS truthiness for an optional string field: present and non-empty. -/
def truthyStr : Option String → Option String
  | some s => if s = "" then none else some s
  | none => none

/-- `if (json.title) ... else if (json.name) ... else if (json.displayName)`
(src/main.js lines 110-112). -/
def jsonTitleOf (j : Jsonish) : Option String :=
  match truthyStr j.title with
  | some t => some t
  | none =>
    match truthyStr j.name with
    | some t => some t
    | none => truthyStr j.displayName

/-- Rule (a), the regex `/<title>(.*?)<\/title>/i`: scanning for the
lazily-matched group after `<title>`, stopping the inner scan at the
first `</title>` and failing it at a newline (JS `.` does not match
`\n`). Returns the group for the first start position that succeeds. -/
def scanTitleClose : List Char → Option (List Char)
  | [] => none
  | c :: cs =>
    if "</title>".data.isPrefixOf ((c :: cs).map Char.toLower) then some []
    else if c = '\n' then none
    else
      match scanTitleClose cs with
      | some g => some (c :: g)
      | none => none

/-- See `scanTitleClose`; this scans the start positions. -/
def findHtmlTitle : List Char → Option (List Char)
  | [] => none
  | c :: cs =>
    if "<title>".data.isPrefixOf ((c :: cs).map Char.toLower) then
      match scanTitleClose ((c :: cs).drop 7) with
      | some g => some g
      | none => findHtmlTitle cs
    else findHtmlTitle cs

/-- Rule (b) predicate: `line.trim().startsWith('# ')` (src/main.js 94). -/
def isMdHeading (line : String) : Bool :=
  jsStartsWith (jsTrim line) "# "

/-- `line.replace(/^#\s*/, '').trim()` (src/main.js 95): the anchored
replace only fires when the raw line begins with `#`. -/
def mdStrip (line : String) : String :=
  match line.data with
  | '#' :: rest => jsTrim (String.mk (rest.dropWhile Char.isWhitespace))
  | _ => jsTrim line

/-- Rule (c) line test, regex `/\/\/\s*title:|\/\*\s*title:|#\s*title:/i`
checked at one start position of the lower-cased line. -/
def markerAt (cs : List Char) : Bool :=
  (("//".data.isPrefixOf cs || "/*".data.isPrefixOf cs)
      && "title:".data.isPrefixOf ((cs.drop 2).dropWhile Char.isWhitespace))
    || ("#".data.isPrefixOf cs
      && "title:".data.isPrefixOf ((cs.drop 1).dropWhile Char.isWhitespace))

/-- Rule (c) line test over all start positions. -/
def hasMarker : List Char → Bool
  | [] => false
  | c :: cs => markerAt (c :: cs) || hasMarker cs

/-- `commentTitle.match(/title:\s*(.+)/i)` (src/main.js 102): first
`title:` occurrence (case-insensitive) with at least one character after
it on the line; `\s*` is greedy but backtracks so that `(.+)` keeps at
least one character. -/
def findTitleColon : List Char → Option String
  | [] => none
  | c :: cs =>
    if "title:".data.isPrefixOf ((c :: cs).map Char.toLower) then
      let rest := (c :: cs).drop 6
      if rest.isEmpty then none
      else
        let ws := (rest.takeWhile Char.isWhitespace).length
        some (String.mk (rest.drop (min ws (rest.length - 1))))
    else findTitleColon cs

/-- `content.split('\n').slice(0, 10)` (src/main.js 87). -/
def firstLines (content : String) : List String :=
  ((content.data.splitOn '\n').map String.mk).take 10

/-- The `title:`-in-comment extraction over the first 10 lines: the value
is `none` both when no line carries a marker and when the chosen line's
`/title:\s*(.+)/i` match fails (in which case the code falls through). -/
def commentTitleOf (lines : List String) : Option String :=
  match lines.find? (fun l => hasMarker (l.data.map Char.toLower)) with
  | some l => (findTitleColon l.data).map jsTrim
  | none => none

/-- The JSON-derived title: only consulted for `.json` files, using the
externally supplied `JSON.parse` outcome (`none` models a parse failure,
which the code swallows). -/
def jsonResultOf (fileName : String) (parsed : Option Jsonish) : Option String :=
  if jsToLower (extnameJs fileName) = ".json" then
    match parsed with
    | some j => jsonTitleOf j
    | none => none
  else none

/-- Rules (d)-(f) of `extractTitleFromContent` (src/main.js 106-125). -/
def titleJsonOnward (lines : List String) (fileName : String)
    (parsed : Option Jsonish) : String :=
  match jsonResultOf fileName parsed with
  | some t => t
  | none =>
    match lines.find? (fun l => 0 < (jsTrim l).length) with
    | some l => if (jsTrim l).length < 100 then jsTrim l else fileName
    | none => fileName

/-- `extractTitleFromContent(content, fileName)` (src/main.js 86-126),
with the `JSON.parse(content)` outcome supplied as `parsed`. -/
def extractTitleFromContent (content fileName : String)
    (parsed : Option Jsonish) : String :=
  let lines := firstLines content
  match findHtmlTitle content.data with
  | some g => jsTrim (String.mk g)
  | none =>
    match lines.find? (fun l => isMdHeading l) with
    | some l => mdStrip l
    | none =>
      match lines.find? (fun l => hasMarker (l.data.map Char.toLower)) with
      | some l =>
        match findTitleColon l.data with
        | some g => jsTrim g
        | none => titleJsonOnward lines fileName parsed
      | none => titleJsonOnward lines fileName parsed

/-- `extractTextContent(filePath, fileName)` (src/main.js 60-84), with the
`fs.readFile` outcome supplied as `read`. -/
def extractTextContent (read : ReadOutcome) (fileName : String)
    (parsed : Option Jsonish) : ExtractResult :=
  match read with
  | .success content =>
    { title := extractTitleFromContent content fileName parsed
      content :=
        if maxContentLength < content.length then
          String.mk (content.data.take maxContentLength) ++ "...[truncated]"
        else content
      extractable := true
      contentLength := content.length
      wordCount := wordCountJs content }
  | .eisdir => { title := fileName, reason := "Directory" }
  | .failure => { title := fileName, reason := "Binary or encoding issue" }

/-- `fileName.replace(ext, '')`: remove the first occurrence of `ext`. -/
def removeFirst (pat : List Char) : List Char → List Char
  | [] => []
  | c :: cs =>
    if pat ≠ [] && pat.isPrefixOf (c :: cs) then (c :: cs).drop pat.length
    else c :: removeFirst pat cs

/-- `extractDocumentTitle(filePath, fileName)` (src/main.js 128-147), with
the `fs.stat` outcome supplied (the `documentType` extra field is not
consumed by `addScan` and is omitted). -/
def extractDocumentTitle (stat : StatOutcome) (fileName : String) :
    ExtractResult :=
  match stat with
  | .success size mtimeIso =>
    { title := String.mk (removeFirst (extnameJs fileName).data fileName.data)
      content := "Document: " ++ fileName ++ "\nSize: " ++ toString size
        ++ " bytes\nModified: " ++ mtimeIso
      extractable := false
      reason := "Document parsing not implemented" }
  | .failure msg => { title := fileName, reason := msg }

/-- `extractContent(filePath, fileStats)` (src/main.js 31-58): classify by
extension and size, then delegate; every failure of the external reads is
converted to a non-extractable result, no exception escapes. -/
def extractContent (filePath : String) (size : Nat) (read : ReadOutcome)
    (parsed : Option Jsonish) (stat : StatOutcome) : ExtractResult :=
  let ext := jsToLower (extnameJs filePath)
  let fileName := basenameJs filePath
  if maxFileSize < size then
    { title := fileName, reason := "File too large" }
  else if ext ∈ textExtensions then
    extractTextContent read fileName parsed
  else if ext ∈ titleExtensions then
    extractDocumentTitle stat fileName
  else
    { title := fileName, reason := "Unsupported file type" }

/-! ## Inverted indexes (src/main.js lines 155-253) -/

/-- A JS `Map` from keys to ordinal collections, modelled as an insertion-
ordered association list. -/
def PostingMap (κ : Type) : Type := List (κ × List Nat)

/-- `indexMap.get(key)` after `indexMap.has(key)`. -/
def idxLookup {κ : Type} [DecidableEq κ] :
    PostingMap κ → κ → Option (List Nat)
  | [], _ => none
  | (k', s) :: rest, k => if k' = k then some s else idxLookup rest k

/-- Adding `i` to the `Set` stored under `key`, creating the entry when
missing (the `has`/`set`/`get(...).add` pattern of src/main.js 234-239);
a JS `Set` keeps one copy of each member in insertion order. -/
def idxAdd {κ : Type} [DecidableEq κ] :
    PostingMap κ → κ → Nat → PostingMap κ
  | [], k, i => [(k, [i])]
  | (k', s) :: rest, k, i =>
    if k' = k then (k', if i ∈ s then s else s ++ [i]) :: rest
    else (k', s) :: idxAdd rest k i

/-- Pushing `i` onto the array stored under `key` (the pattern used by the
extension and scan indexes, src/main.js 200-204 and 218-221). -/
def listAdd {κ : Type} [DecidableEq κ] :
    PostingMap κ → κ → Nat → PostingMap κ
  | [], k, i => [(k, [i])]
  | (k', s) :: rest, k, i =>
    if k' = k then (k', s ++ [i]) :: rest
    else (k', s) :: listAdd rest k i

/-- `i` is recorded under `key` in the map. -/
def idxMemB {κ : Type} [DecidableEq κ] (m : PostingMap κ) (k : κ) (i : Nat) :
    Bool :=
  match idxLookup m k with
  | some s => decide (i ∈ s)
  | none => false

/-- `indexText(text, indexMap, fileIndex)` (src/main.js 228-253): register
the file ordinal under every token of length ≥ 2 of the text, and
additionally under every sliding 3-character window of every token of
length ≥ 3. -/
def indexText (text : String) (m : PostingMap String) (fileIndex : Nat) :
    PostingMap String :=
  let words := tokenizeJs text
  let m1 := words.foldl (fun acc w => idxAdd acc w fileIndex) m
  words.foldl
    (fun acc w =>
      if 3 ≤ w.length then
        (windows3 w).foldl (fun acc2 s => idxAdd acc2 s fileIndex) acc
      else acc)
    m1

/-- The five derived indexes (src/main.js 155-162). -/
structure Indexes where
  nameIndex : PostingMap String := []
  contentIndex : PostingMap String := []
  titleIndex : PostingMap String := []
  extensionIndex : PostingMap String := []
  pathIndex : PostingMap String := []
  scanIndex : PostingMap Nat := []

/-- `path.sep` of the win32 build the app targets. -/
def pathSep : Char := '\\'

/-- `file.path.toLowerCase().split(path.sep)` filtered to parts of length
> 2 (src/main.js 207-215). -/
def pathParts (p : String) : List String :=
  (((jsToLower p).data.splitOn pathSep).map String.mk).filter
    (fun part => 2 < part.length)

/-- One iteration of the `buildIndexes` forEach (src/main.js 183-222) at
ordinal `i`. -/
def buildIndexesStep (acc : Indexes) (i : Nat) (file : FileRecord) :
    Indexes :=
  let acc := { acc with nameIndex := indexText file.name acc.nameIndex i }
  let acc :=
    if file.title ≠ "" ∧ file.title ≠ file.name then
      { acc with titleIndex := indexText file.title acc.titleIndex i }
    else acc
  let acc :=
    if file.content ≠ "" then
      { acc with contentIndex := indexText file.content acc.contentIndex i }
    else acc
  let ext := jsToLower (extnameJs file.name)
  let acc :=
    if ext ≠ "" then
      { acc with extensionIndex := listAdd acc.extensionIndex ext i }
    else acc
  let acc :=
    { acc with
      pathIndex :=
        (pathParts file.path).foldl (fun m part => idxAdd m part i)
          acc.pathIndex }
  { acc with scanIndex := listAdd acc.scanIndex file.scanId i }

/-- `buildIndexes()` (src/main.js 179-225): clear all maps, then fold the
per-record step over the record sequence with its ordinals. -/
def buildIndexes (files : List FileRecord) : Indexes :=
  files.enum.foldl (fun acc p => buildIndexesStep acc p.1 p.2) {}

/-! ## Ingestion (src/main.js 265-340) -/

/-- The enhanced record built for one raw file (src/main.js 277-292).  The
content-extraction outcome depends on the filesystem and is supplied by
the oracle `extract`; `now` models the `Date.now()` instant of the call
(`scanId` and `addedAt` are both taken during the same call). -/
def enhanceFile (extract : RawFile → ExtractResult) (scanId : Nat)
    (now : Nat) (file : RawFile) : FileRecord :=
  let cd := extract file
  { name := file.name
    path := file.path
    isDirectory := file.isDirectory
    size := file.size
    modified := file.modified
    created := file.created
    scanId := scanId
    extension := jsToLower (extnameJs file.name)
    title := cd.title
    content := cd.content
    extractable := cd.extractable
    contentLength := cd.contentLength
    wordCount := cd.wordCount
    extractionReason := cd.reason
    addedAt := now }

/-- The Scan row computed from the enhanced records (src/main.js 306-316);
`scanDuration` elapses between two `Date.now()` calls and is left 0 (the
single-instant model). -/
def mkScan (scanId : Nat) (drivePath : String) (now : Nat)
    (enhanced : List FileRecord) : Scan :=
  { id := scanId
    drivePath := drivePath
    scanDate := now
    totalFiles := (enhanced.filter (fun f => !f.isDirectory)).length
    totalFolders := (enhanced.filter (fun f => f.isDirectory)).length
    totalSize := (enhanced.map (fun f => f.size)).sum
    extractableFiles := (enhanced.filter (fun f => f.extractable)).length
    totalContentLength := (enhanced.map (fun f => f.contentLength)).sum
    scanDuration := 0 }

/-- `addScan(drivePath, files)` (src/main.js 265-340).  `scanId` is
`Date.now()`, i.e. the `now` parameter.  Batched extraction settles every
file in order (`extractContent` never rejects), so the enhanced list is a
plain map.  Replace-by-prefix then drops every stored file/scan whose
path/drivePath starts with `drivePath` case-insensitively, and the new
records and Scan are appended.  (Index rebuild and the deferred
`saveData` act outside the returned catalog value.)  Returns the new
catalog and the `scanId`. -/
def addScan (extract : RawFile → ExtractResult) (now : Nat)
    (drivePath : String) (files : List RawFile) (db : DB) : DB × Nat :=
  let scanId := now
  let enhanced := files.map (enhanceFile extract scanId now)
  let scan := mkScan scanId drivePath now enhanced
  let files1 := db.files.filter (fun f => !(prefixCI drivePath f.path))
  let scans1 := db.scans.filter (fun s => !(prefixCI drivePath s.drivePath))
  (⟨scans1 ++ [scan], files1 ++ enhanced⟩, scanId)

/-! ## Search (src/main.js 342-424) -/

/-- `options.limit || 1000` (src/main.js 347): `0` is falsy in JS. -/
def resolveLimit : Option Nat → Nat
  | none => 1000
  | some l => if l = 0 then 1000 else l

/-- `results.add(idx)` on the JS `Set` of candidate ordinals, modelled as
an insertion-ordered duplicate-free list. -/
def setAdd (s : List Nat) (i : Nat) : List Nat :=
  if i ∈ s then s else s ++ [i]

/-- `searchInIndex(query, indexMap, results)` (src/main.js 412-424):
exact-key hit first, then every key containing the query as a
substring. -/
def searchInIndex (q : String) (indexMap : PostingMap String)
    (results : List Nat) : List Nat :=
  let results1 :=
    match idxLookup indexMap q with
    | some s => s.foldl setAdd results
    | none => results
  indexMap.foldl
    (fun acc kv =>
      if jsIncludes kv.1 q ∧ kv.1 ≠ q then kv.2.foldl setAdd acc else acc)
    results1

/-- Candidate collection of `searchFiles` (src/main.js 349-371) for the
already-lower-cased query: the extension-index lookup when the query
starts with `.`, otherwise the union over name, title and content indexes
plus every path-index key containing the query. -/
def searchCandidates (q : String) (idxs : Indexes) : List Nat :=
  if jsStartsWith q "." then
    match idxLookup idxs.extensionIndex q with
    | some s => s.foldl setAdd []
    | none => []
  else
    let r1 := searchInIndex q idxs.nameIndex []
    let r2 := searchInIndex q idxs.titleIndex r1
    let r3 := searchInIndex q idxs.contentIndex r2
    idxs.pathIndex.foldl
      (fun acc kv =>
        if jsIncludes kv.1 q then kv.2.foldl setAdd acc else acc)
      r3

/-- The relevance score of one candidate record (src/main.js 378-388),
accumulated exactly as the code does: name exact/contains, then title
contains (guarded by `file.title` truthiness), then content contains
(guarded by `file.content` truthiness). -/
def relevanceScore (q : String) (f : FileRecord) : Nat :=
  let s1 :=
    if jsToLower f.name = q then 100
    else if jsIncludes (jsToLower f.name) q then 50
    else 0
  let s2 :=
    if f.title ≠ "" ∧ jsIncludes (jsToLower f.title) q then s1 + 30 else s1
  if f.content ≠ "" ∧ jsIncludes (jsToLower f.content) q then s2 + 10 else s2

/-- `this.data.files[idx]` (in-range for every ordinal the indexes hold). -/
def getFile (files : List FileRecord) (i : Nat) : FileRecord :=
  files.getD i
    { name := "", path := "", isDirectory := false, size := 0, modified := 0,
      created := 0, scanId := 0, extension := "", title := "", content := "",
      extractable := false, contentLength := 0, wordCount := 0,
      extractionReason := "", addedAt := 0 }

/-- `comparator(a, b) <= 0` for the sort comparator of src/main.js
392-405: relevance score descending, then `isDirectory` descending
(directories first), then name ascending (`localeCompare` modelled by the
standard string order). -/
def searchLe (a b : FileRecord × Nat) : Bool :=
  if a.2 = b.2 then
    if a.1.isDirectory = b.1.isDirectory then decide (a.1.name ≤ b.1.name)
    else a.1.isDirectory
  else decide (b.2 ≤ a.2)

/-- `searchLe` lifted to scored candidates that remember their ordinal. -/
def tripleLe (a b : Nat × FileRecord × Nat) : Bool :=
  searchLe a.2 b.2

/-- `searchFiles(query, options)` (src/main.js 342-410).  Each result is
`(ordinal, record, relevanceScore)`; the code returns the spread
`{...file, relevanceScore}` objects, i.e. the `(record, score)` parts, and
the ordinal is the `Set` element the object was built from.  The JS
`Array.prototype.sort` is modelled by `mergeSort` with the comparator's
`≤`; both satisfy the comparator-sortedness the claims state (tie order
among equal elements is unspecified in JS before ES2019 and is not part
of any claim). -/
def searchFiles (query : String) (opts : Option Nat) (db : DB) :
    List (Nat × FileRecord × Nat) :=
  if query.length < 2 then []
  else
    let q := jsToLower query
    let maxResults := resolveLimit opts
    let cands := searchCandidates q (buildIndexes db.files)
    let scored :=
      cands.map (fun i => (i, getFile db.files i, relevanceScore q (getFile db.files i)))
    (scored.mergeSort tripleLe).take maxResults

/-! ## Deletion, details, retention (src/main.js 470-488, 683-703, 919-948) -/

/-- Result type of the `delete-scan` IPC handler. -/
inductive DeleteScanResult where
  | ok (deletedCount : Nat)
  | err (msg : String)
deriving DecidableEq, Repr

/-- The `delete-scan` handler (src/main.js 683-703): filter the scan and
its files out and report `success: true` with the removed-file count
(`.err` only models the `Database not initialized` / exception paths). -/
def deleteScanHandler (scanId : Nat) (db : DB) : DB × DeleteScanResult :=
  let files1 := db.files.filter (fun f => f.scanId ≠ scanId)
  let scans1 := db.scans.filter (fun s => s.id ≠ scanId)
  (⟨scans1, files1⟩, .ok (db.files.length - files1.length))

/-- Result type of the `get-file-details` IPC handler. -/
inductive FileDetailsResult where
  | found (file : FileRecord)
  | notFound (msg : String)
deriving DecidableEq, Repr

/-- The `get-file-details` handler (src/main.js 919-948): linear search by
exact path, typed not-found outcome on a miss. -/
def getFileDetailsHandler (filePath : String) (db : DB) : FileDetailsResult :=
  match db.files.find? (fun f => f.path = filePath) with
  | some f => .found f
  | none => .notFound "File not found in database"

/-- Descending order on `scanDate` — `(a, b) => new Date(b.scanDate) -
new Date(a.scanDate)` as a `≤`-test. -/
def scanDateDescLe (a b : Scan) : Bool :=
  decide (b.scanDate ≤ a.scanDate)

/-- `cleanupOldScans(keepCount)` (src/main.js 470-488): early-return 0
when there are at most `keepCount` scans; otherwise keep the `keepCount`
most recent scans by `scanDate`, drop every file whose `scanId` is not
among the kept scans' ids, and return the number of removed files. -/
def cleanupOldScans (keepCount : Nat) (db : DB) : DB × Nat :=
  if db.scans.length ≤ keepCount then (db, 0)
  else
    let scansToKeep := (db.scans.mergeSort scanDateDescLe).take keepCount
    let keepIds := scansToKeep.map (fun s => s.id)
    let files1 := db.files.filter (fun f => decide (f.scanId ∈ keepIds))
    (⟨scansToKeep, files1⟩, db.files.length - files1.length)

/-! ## Posting-map lemmas -/

theorem idxMemB_add_self {κ : Type} [DecidableEq κ]
    (m : PostingMap κ) (k : κ) (i : Nat) :
    idxMemB (idxAdd m k i) k i = true := by
  induction m with
  | nil => simp [idxAdd, idxMemB, idxLookup]
  | cons hd tl ih =>
    obtain ⟨k', s⟩ := hd
    by_cases h : k' = k
    · subst h
      by_cases hi : i ∈ s <;> simp [idxAdd, idxMemB, idxLookup, hi]
    · simpa [idxAdd, idxMemB, idxLookup, h] using ih

theorem idxMemB_add_mono {κ : Type} [DecidableEq κ]
    {m : PostingMap κ} {k : κ} {i : Nat} (k' : κ) (j : Nat)
    (h : idxMemB m k i = true) :
    idxMemB (idxAdd m k' j) k i = true := by
  induction m with
  | nil => simp [idxMemB, idxLookup] at h
  | cons hd tl ih =>
    obtain ⟨a, s⟩ := hd
    by_cases hak' : a = k'
    · subst hak'
      by_cases hak : a = k
      · subst hak
        simp [idxMemB, idxLookup] at h
        by_cases hj : j ∈ s <;>
          simp [idxAdd, idxMemB, idxLookup, hj, h, List.mem_append]
      · simpa [idxAdd, idxMemB, idxLookup, hak] using
          (by simpa [idxMemB, idxLookup, hak] using h)
    · by_cases hak : a = k
      · subst hak
        simp [idxMemB, idxLookup] at h
        simp [idxAdd, idxMemB, idxLookup, hak', h]
      · simp [idxMemB, idxLookup, hak] at h
        simpa [idxAdd, idxMemB, idxLookup, hak', hak] using ih h

theorem idxMemB_foldl_mono {κ : Type} [DecidableEq κ]
    {m : PostingMap κ} {k : κ} {i : Nat} (ws : List κ) (j : Nat)
    (h : idxMemB m k i = true) :
    idxMemB (ws.foldl (fun acc w => idxAdd acc w j) m) k i = true := by
  induction ws generalizing m with
  | nil => simpa using h
  | cons w ws ih => exact ih (idxMemB_add_mono w j h)

theorem idxMemB_foldl_self {κ : Type} [DecidableEq κ]
    (m : PostingMap κ) {k : κ} (i : Nat) {ws : List κ} (hk : k ∈ ws) :
    idxMemB (ws.foldl (fun acc w => idxAdd acc w i) m) k i = true := by
  induction ws generalizing m with
  | nil => cases hk
  | cons w ws ih =>
    rcases List.mem_cons.mp hk with h | h
    · subst h
      exact idxMemB_foldl_mono ws i (idxMemB_add_self m k i)
    · exact ih _ h

/-- The window-registration step of `indexText` for one token. -/
def windowStep (i : Nat) (acc : PostingMap String) (w : String) :
    PostingMap String :=
  if 3 ≤ w.length then
    (windows3 w).foldl (fun acc2 s => idxAdd acc2 s i) acc
  else acc

theorem idxMemB_windowStep_mono {m : PostingMap String} {k : String}
    {i : Nat} (w : String) (j : Nat) (h : idxMemB m k i = true) :
    idxMemB (windowStep j m w) k i = true := by
  unfold windowStep
  split
  · exact idxMemB_foldl_mono _ j h
  · exact h

theorem idxMemB_foldl_windowStep_mono {m : PostingMap String} {k : String}
    {i : Nat} (ws : List String) (j : Nat) (h : idxMemB m k i = true) :
    idxMemB (ws.foldl (windowStep j) m) k i = true := by
  induction ws generalizing m with
  | nil => simpa using h
  | cons w ws ih => exact ih (idxMemB_windowStep_mono w j h)

theorem idxMemB_foldl_windowStep_self (m : PostingMap String)
    {w sub : String} {ws : List String} (i : Nat) (hw : w ∈ ws)
    (h3 : 3 ≤ w.length) (hsub : sub ∈ windows3 w) :
    idxMemB (ws.foldl (windowStep i) m) sub i = true := by
  induction ws generalizing m with
  | nil => cases hw
  | cons w' ws ih =>
    rcases List.mem_cons.mp hw with h | h
    · subst h
      refine idxMemB_foldl_windowStep_mono ws i ?_
      unfold windowStep
      rw [if_pos h3]
      exact idxMemB_foldl_self _ i hsub
    · exact ih _ h

theorem stringLengthData (s : String) : s.length = s.data.length := rfl

theorem memWindows3OfSub {sub tok : String} (hlen : sub.length = 3)
    (hinf : sub.data <:+: tok.data) : sub ∈ windows3 tok := by
  obtain ⟨pre, post, hsplit⟩ := hinf
  unfold windows3
  rw [List.mem_map]
  refine ⟨pre.length, ?_, ?_⟩
  · rw [List.mem_range]
    have hL : tok.data.length = pre.length + (sub.data.length + post.length) := by
      rw [← hsplit]; simp [List.length_append]
    have hsub3 : sub.data.length = 3 := by
      rw [← stringLengthData, hlen]
    rw [stringLengthData]
    omega
  · have hdrop : tok.data.drop pre.length = sub.data ++ post := by
      rw [← hsplit, List.append_assoc, List.drop_left]
    have hsub3 : sub.data.length = 3 := by
      rw [← stringLengthData, hlen]
    rw [hdrop, ← hsub3, List.take_left, stringMkData]

theorem indexText_def (text : String) (m : PostingMap String) (i : Nat) :
    indexText text m i =
      (tokenizeJs text).foldl (windowStep i)
        ((tokenizeJs text).foldl (fun acc w => idxAdd acc w i) m) := rfl

/-! ## Claim C3 -/

/-- C3 counterexample: the text "abcde" yields the single token "abcde";
"abcd" is a substring of that token of length ≥ 3, yet `indexText` creates
no entry for it — only the full token and the sliding 3-character windows
are indexed (src/main.js 242-252 take `substring(i, i + 3)` only). -/
theorem C3_substring_claim_false :
    "abcde" ∈ tokenizeJs "abcde"
      ∧ "abcd".data <:+: "abcde".data
      ∧ 3 ≤ "abcd".length
      ∧ idxLookup (indexText "abcde" [] 0) "abcd" = none := by
  decide

/-- C3 (amended): for every token produced by tokenization, `indexText`
maps the full token to a set containing the record ordinal, and likewise
every contiguous substring of the token of length exactly 3; substrings of
length 4 or more (other than the full token) are not covered. -/
theorem C3_token_and_window_indexing (text : String) (m : PostingMap String)
    (i : Nat) (tok : String) (htok : tok ∈ tokenizeJs text) :
    idxMemB (indexText text m i) tok i = true
      ∧ ∀ sub : String, sub.length = 3 → sub.data <:+: tok.data →
          idxMemB (indexText text m i) sub i = true := by
  rw [indexText_def]
  constructor
  · exact idxMemB_foldl_windowStep_mono _ i (idxMemB_foldl_self m i htok)
  · intro sub hlen hinf
    have h3 : 3 ≤ tok.length := by
      have h1 := hinf.length_le
      have h2 : sub.data.length = 3 := by rw [← stringLengthData]; exact hlen
      rw [stringLengthData]
      omega
    exact idxMemB_foldl_windowStep_self _ i htok h3
      (memWindows3OfSub hlen hinf)

/-- C3 witness: concrete instance of the amended claim on the text
"abcde" at ordinal 0. -/
theorem C3_token_and_window_indexing_witness :
    idxMemB (indexText "abcde" [] 0) "abcde" 0 = true
      ∧ idxMemB (indexText "abcde" [] 0) "bcd" 0 = true :=
  ⟨(C3_token_and_window_indexing "abcde" [] 0 "abcde" (by decide)).1,
   (C3_token_and_window_indexing "abcde" [] 0 "abcde" (by decide)).2 "bcd"
     (by decide) (by decide)⟩

/-! ## Claim C1 -/

/-- Extraction oracle used by concrete evaluations: every field keeps the
scheme's default (what `extractContent` returns is irrelevant to the
ingestion bookkeeping under test). -/
def extractStub : RawFile → ExtractResult := fun _ => {}

/-- C1 is violated by the code: `addScan` allocates `scanId = Date.now()`
with no tie-breaking counter (src/main.js 266), so two calls inside the
same millisecond — here both at instant 1000, over the unrelated roots
`D:\a` and `D:\b` so that replace-by-prefix removes nothing — return the
same scanId and leave two Scans sharing id 1000 in the catalog. -/
theorem C1_duplicate_scanIds :
    (addScan extractStub 1000 "D:\\a" [] ⟨[], []⟩).2 = 1000
      ∧ (addScan extractStub 1000 "D:\\b" []
          (addScan extractStub 1000 "D:\\a" [] ⟨[], []⟩).1).2 = 1000
      ∧ ((addScan extractStub 1000 "D:\\b" []
          (addScan extractStub 1000 "D:\\a" [] ⟨[], []⟩).1).1.scans.map
            (fun s => s.id)) = [1000, 1000]
      ∧ ¬ ((addScan extractStub 1000 "D:\\b" []
          (addScan extractStub 1000 "D:\\a" [] ⟨[], []⟩).1).1.scans.map
            (fun s => s.id)).Nodup := by
  decide

/-! ## Claim C2 -/

theorem listIsPrefixOfSelf {α : Type} [BEq α] [LawfulBEq α] (l : List α) :
    l.isPrefixOf l = true := by
  induction l with
  | nil => rfl
  | cons a l ih => simp [List.isPrefixOf, ih]

theorem prefixCI_self (s : String) : prefixCI s s = true := by
  unfold prefixCI jsStartsWith
  exact listIsPrefixOfSelf _

theorem enhanceFile_path (extract : RawFile → ExtractResult)
    (scanId now : Nat) (f : RawFile) :
    (enhanceFile extract scanId now f).path = f.path := rfl

/-- C2: after `addScan(rootPath, files)` (with the supplied paths lying
under the root, as the directory walk guarantees), the stored FileRecords
whose path starts with `rootPath` case-insensitively are exactly the
records enhanced from the supplied list — in particular their count is the
list's size — and the only stored Scan whose `drivePath` starts with
`rootPath` is the newly appended one (src/main.js 318-330). -/
theorem C2_replaceByPrefix (extract : RawFile → ExtractResult)
    (now : Nat) (drivePath : String) (files : List RawFile) (db : DB)
    (hall : ∀ f ∈ files, prefixCI drivePath f.path = true) :
    ((addScan extract now drivePath files db).1.files.filter
        (fun r => prefixCI drivePath r.path))
      = files.map (enhanceFile extract now now)
    ∧ ((addScan extract now drivePath files db).1.files.filter
        (fun r => prefixCI drivePath r.path)).length = files.length
    ∧ ((addScan extract now drivePath files db).1.scans.filter
        (fun s => prefixCI drivePath s.drivePath))
      = [mkScan now drivePath now (files.map (enhanceFile extract now now))] := by
  have hfiles :
      ((addScan extract now drivePath files db).1.files.filter
        (fun r => prefixCI drivePath r.path))
      = files.map (enhanceFile extract now now) := by
    show ((db.files.filter (fun f => !(prefixCI drivePath f.path))
        ++ files.map (enhanceFile extract now now)).filter
          (fun r => prefixCI drivePath r.path))
      = files.map (enhanceFile extract now now)
    rw [List.filter_append, List.filter_filter]
    have h1 :
        (db.files.filter
          (fun a => prefixCI drivePath a.path && !(prefixCI drivePath a.path)))
        = [] := by
      apply List.filter_eq_nil_iff.mpr
      intro a _
      simp [Bool.and_not_self]
    have h2 :
        ((files.map (enhanceFile extract now now)).filter
          (fun r => prefixCI drivePath r.path))
        = files.map (enhanceFile extract now now) := by
      apply List.filter_eq_self.mpr
      intro r hr
      obtain ⟨f, hf, rfl⟩ := List.mem_map.mp hr
      rw [enhanceFile_path]
      exact hall f hf
    rw [h1, h2, List.nil_append]
  refine ⟨hfiles, ?_, ?_⟩
  · rw [hfiles, List.length_map]
  · show ((db.scans.filter (fun s => !(prefixCI drivePath s.drivePath))
        ++ [mkScan now drivePath now (files.map (enhanceFile extract now now))]).filter
          (fun s => prefixCI drivePath s.drivePath))
      = [mkScan now drivePath now (files.map (enhanceFile extract now now))]
    rw [List.filter_append, List.filter_filter]
    have h1 :
        (db.scans.filter
          (fun a => prefixCI drivePath a.drivePath && !(prefixCI drivePath a.drivePath)))
        = [] := by
      apply List.filter_eq_nil_iff.mpr
      intro a _
      simp [Bool.and_not_self]
    have h2 :
        ([mkScan now drivePath now (files.map (enhanceFile extract now now))].filter
          (fun s => prefixCI drivePath s.drivePath))
      = [mkScan now drivePath now (files.map (enhanceFile extract now now))] := by
      apply List.filter_eq_self.mpr
      intro s hs
      rw [List.mem_singleton] at hs
      subst hs
      exact prefixCI_self drivePath
    rw [h1, h2, List.nil_append]

/-- A pre-existing catalog holding one record and one Scan under
`D:\root` and one unrelated record elsewhere. -/
def dbBefore : DB :=
  { scans :=
      [{ id := 1, drivePath := "D:\\root", scanDate := 1, totalFiles := 1,
         totalFolders := 0, totalSize := 0, extractableFiles := 0,
         totalContentLength := 0, scanDuration := 0 }],
    files :=
      [{ name := "old.txt", path := "D:\\root\\old.txt", isDirectory := false,
         size := 0, modified := 0, created := 0, scanId := 1, extension := ".txt",
         title := "old.txt", content := "", extractable := false,
         contentLength := 0, wordCount := 0, extractionReason := "",
         addedAt := 0 },
       { name := "z.txt", path := "E:\\z.txt", isDirectory := false,
         size := 0, modified := 0, created := 0, scanId := 1, extension := ".txt",
         title := "z.txt", content := "", extractable := false,
         contentLength := 0, wordCount := 0, extractionReason := "",
         addedAt := 0 }] }

/-- The raw file list of the re-scan of `D:\root`. -/
def rawRescan : List RawFile :=
  [{ name := "x.txt", path := "D:\\root\\x.txt", isDirectory := false,
     size := 3, modified := 0, created := 0 }]

/-- C2 witness: re-scanning `D:\root` over `dbBefore` leaves exactly one
record under that prefix (the count of the supplied list). -/
theorem C2_replaceByPrefix_witness :
    ((addScan extractStub 2000 "D:\\root" rawRescan dbBefore).1.files.filter
        (fun r => prefixCI "D:\\root" r.path)).length = rawRescan.length :=
  (C2_replaceByPrefix extractStub 2000 "D:\\root" rawRescan dbBefore
    (by decide)).2.1

/-! ## Claim C4 -/

theorem scanDateDescLe_trans (a b c : Scan) (h1 : scanDateDescLe a b)
    (h2 : scanDateDescLe b c) : scanDateDescLe a c := by
  unfold scanDateDescLe at *
  have hba := of_decide_eq_true h1
  have hcb := of_decide_eq_true h2
  exact decide_eq_true (le_trans hcb hba)

theorem scanDateDescLe_total (a b : Scan) :
    scanDateDescLe a b || scanDateDescLe b a := by
  unfold scanDateDescLe
  rcases Nat.le_total a.scanDate b.scanDate with h | h <;> simp [h]

/-- C4: for every catalog satisfying the data-model invariant that each
FileRecord's `scanId` belongs to some Scan, `cleanupOldScans k` leaves
exactly `min k totalScans` Scans, every remaining FileRecord's `scanId`
is among the retained ids, every FileRecord whose `scanId` is retained is
kept, the returned count is the number of removed FileRecords, and every
retained Scan is at least as recent (by `scanDate`) as every dropped one
(src/main.js 470-488; when `totalScans ≤ k` the function early-returns 0
leaving the catalog unchanged). -/
theorem C4_cleanupOldScans (k : Nat) (db : DB)
    (hwf : ∀ f ∈ db.files, f.scanId ∈ db.scans.map (fun s => s.id)) :
    (cleanupOldScans k db).1.scans.length = min k db.scans.length
    ∧ (∀ f ∈ (cleanupOldScans k db).1.files,
        f.scanId ∈ (cleanupOldScans k db).1.scans.map (fun s => s.id))
    ∧ (∀ f ∈ db.files,
        f.scanId ∈ (cleanupOldScans k db).1.scans.map (fun s => s.id) →
          f ∈ (cleanupOldScans k db).1.files)
    ∧ (cleanupOldScans k db).2
        = db.files.length - (cleanupOldScans k db).1.files.length
    ∧ (∀ s ∈ (cleanupOldScans k db).1.scans, ∀ t ∈ db.scans,
        t ∉ (cleanupOldScans k db).1.scans → t.scanDate ≤ s.scanDate) := by
  by_cases h : db.scans.length ≤ k
  · have hval : cleanupOldScans k db = (db, 0) := by
      simp [cleanupOldScans, h]
    rw [hval]
    refine ⟨(Nat.min_eq_right h).symm, hwf, fun f hf _ => hf, ?_, ?_⟩
    · exact (Nat.sub_self _).symm
    · intro s _ t ht htn
      exact absurd ht htn
  · have hval : cleanupOldScans k db =
        (⟨(db.scans.mergeSort scanDateDescLe).take k,
          db.files.filter (fun f =>
            decide (f.scanId ∈
              ((db.scans.mergeSort scanDateDescLe).take k).map
                (fun s => s.id)))⟩,
         db.files.length -
           (db.files.filter (fun f =>
             decide (f.scanId ∈
               ((db.scans.mergeSort scanDateDescLe).take k).map
                 (fun s => s.id)))).length) := by
      simp [cleanupOldScans, h]
    rw [hval]
    refine ⟨?_, ?_, ?_, rfl, ?_⟩
    · rw [List.length_take, List.length_mergeSort]
    · intro f hf
      exact of_decide_eq_true (List.mem_filter.mp hf).2
    · intro f hf hid
      exact List.mem_filter.mpr ⟨hf, decide_eq_true hid⟩
    · intro s hs t ht htn
      have hsorted : ((db.scans.mergeSort scanDateDescLe).take k
            ++ (db.scans.mergeSort scanDateDescLe).drop k).Pairwise
          (fun a b => scanDateDescLe a b) := by
        rw [List.take_append_drop]
        exact List.sorted_mergeSort scanDateDescLe_trans scanDateDescLe_total
          db.scans
      have h3 := (List.pairwise_append.mp hsorted).2.2
      have htm : t ∈ (db.scans.mergeSort scanDateDescLe).take k
          ++ (db.scans.mergeSort scanDateDescLe).drop k := by
        rw [List.take_append_drop]
        exact List.mem_mergeSort.mpr ht
      rcases List.mem_append.mp htm with h4 | h4
      · exact absurd h4 htn
      · exact of_decide_eq_true (h3 s hs t h4)

/-- A five-record, three-scan catalog for the C4 witness. -/
def dbRetention : DB :=
  { scans :=
      [{ id := 1, drivePath := "D:\\a", scanDate := 10, totalFiles := 2,
         totalFolders := 0, totalSize := 0, extractableFiles := 0,
         totalContentLength := 0, scanDuration := 0 },
       { id := 2, drivePath := "D:\\b", scanDate := 30, totalFiles := 2,
         totalFolders := 0, totalSize := 0, extractableFiles := 0,
         totalContentLength := 0, scanDuration := 0 },
       { id := 3, drivePath := "D:\\c", scanDate := 20, totalFiles := 1,
         totalFolders := 0, totalSize := 0, extractableFiles := 0,
         totalContentLength := 0, scanDuration := 0 }],
    files :=
      [{ name := "a1", path := "D:\\a\\a1", isDirectory := false, size := 0,
         modified := 0, created := 0, scanId := 1, extension := "",
         title := "a1", content := "", extractable := false,
         contentLength := 0, wordCount := 0, extractionReason := "",
         addedAt := 0 },
       { name := "b1", path := "D:\\b\\b1", isDirectory := false, size := 0,
         modified := 0, created := 0, scanId := 2, extension := "",
         title := "b1", content := "", extractable := false,
         contentLength := 0, wordCount := 0, extractionReason := "",
         addedAt := 0 },
       { name := "c1", path := "D:\\c\\c1", isDirectory := false, size := 0,
         modified := 0, created := 0, scanId := 3, extension := "",
         title := "c1", content := "", extractable := false,
         contentLength := 0, wordCount := 0, extractionReason := "",
         addedAt := 0 }] }

/-- C4 witness: concrete instance over `dbRetention` with `keepCount` 1. -/
theorem C4_cleanupOldScans_witness :
    (cleanupOldScans 1 dbRetention).1.scans.length
        = min 1 dbRetention.scans.length
      ∧ (cleanupOldScans 1 dbRetention).2
        = dbRetention.files.length
            - (cleanupOldScans 1 dbRetention).1.files.length :=
  ⟨(C4_cleanupOldScans 1 dbRetention (by decide)).1,
   (C4_cleanupOldScans 1 dbRetention (by decide)).2.2.2.1⟩

/-! ## Claim C5 -/

theorem jsToLower_empty : jsToLower "" = "" := rfl

theorem jsIncludes_empty_of_ne (q : String) (hqd : q.data ≠ []) :
    jsIncludes "" q = false := by
  unfold jsIncludes
  apply decide_eq_false
  intro hcon
  exact hqd (List.eq_nil_of_infix_nil hcon)

/-- C5: for any query of search-relevant length (≥ 2 characters, already
lower-cased by `searchFiles`), the relevance score of a candidate record
is the sum of three independent contributions — 100 for an exact
case-insensitive name match, else 50 for a name containment; 30 for a
title containment; 10 for a content containment (src/main.js 378-388; the
code's `file.title &&`/`file.content &&` truthiness guards are redundant
at these query lengths because an empty field cannot contain the query). -/
theorem C5_additive_relevance (q : String) (f : FileRecord)
    (hq : 2 ≤ q.length) :
    relevanceScore q f =
      (if jsToLower f.name = q then 100
       else if jsIncludes (jsToLower f.name) q then 50 else 0)
      + (if jsIncludes (jsToLower f.title) q then 30 else 0)
      + (if jsIncludes (jsToLower f.content) q then 10 else 0) := by
  have hqd : q.data ≠ [] := by
    intro h0
    rw [stringLengthData, h0] at hq
    simp at hq
  have hemp := jsIncludes_empty_of_ne q hqd
  unfold relevanceScore
  by_cases ht : f.title = "" <;> by_cases hc : f.content = "" <;>
    simp only [ht, hc, jsToLower_empty, hemp, ne_eq, not_true_eq_false,
      false_and, if_false, Bool.false_eq_true, not_false_eq_true,
      true_and, if_neg, ite_false] <;>
    split_ifs <;> omega

/-- A concrete record matching "hello" through name, title and content
simultaneously. -/
def recHello : FileRecord :=
  { name := "hello.txt", path := "D:\\d\\hello.txt", isDirectory := false,
    size := 11, modified := 0, created := 0, scanId := 1, extension := ".txt",
    title := "Say Hello", content := "hello world", extractable := true,
    contentLength := 11, wordCount := 2, extractionReason := "", addedAt := 0 }

/-- C5 witness: `recHello` earns 50 + 30 + 10 = 90. -/
theorem C5_additive_relevance_witness : relevanceScore "hello" recHello = 90 :=
  (C5_additive_relevance "hello" recHello (by decide)).trans (by decide)

/-! ## Claim C7 -/

/-- C7: `extractTitleFromContent` (src/main.js 86-126) applies its rules
in priority order, taking the first that produces a value: (a) an HTML
`<title>` tag anywhere in the content; (b) the first Markdown `#`-heading
among the first 10 lines; (c) a `title:` marker in a line-comment among
the first 10 lines (no value when the `/title:\s*(.+)/i` capture fails);
(d) for `.json` files a truthy `title`/`name`/`displayName` field of the
externally parsed JSON (`parsed = none` models the swallowed parse
failure); (e) the first non-blank line among the first 10 when its
trimmed length is under 100; (f) the filename. -/
theorem C7_title_priority (content fileName : String)
    (parsed : Option Jsonish) :
    (∀ g, findHtmlTitle content.data = some g →
        extractTitleFromContent content fileName parsed
          = jsTrim (String.mk g))
    ∧ (findHtmlTitle content.data = none →
        ∀ l, (firstLines content).find? isMdHeading = some l →
          extractTitleFromContent content fileName parsed = mdStrip l)
    ∧ (findHtmlTitle content.data = none →
        (firstLines content).find? isMdHeading = none →
        ∀ t, commentTitleOf (firstLines content) = some t →
          extractTitleFromContent content fileName parsed = t)
    ∧ (findHtmlTitle content.data = none →
        (firstLines content).find? isMdHeading = none →
        commentTitleOf (firstLines content) = none →
        ∀ t, jsonResultOf fileName parsed = some t →
          extractTitleFromContent content fileName parsed = t)
    ∧ (findHtmlTitle content.data = none →
        (firstLines content).find? isMdHeading = none →
        commentTitleOf (firstLines content) = none →
        jsonResultOf fileName parsed = none →
        ∀ l, (firstLines content).find? (fun l => 0 < (jsTrim l).length)
            = some l →
          (jsTrim l).length < 100 →
          extractTitleFromContent content fileName parsed = jsTrim l)
    ∧ (findHtmlTitle content.data = none →
        (firstLines content).find? isMdHeading = none →
        commentTitleOf (firstLines content) = none →
        jsonResultOf fileName parsed = none →
        (∀ l, (firstLines content).find? (fun l => 0 < (jsTrim l).length)
            = some l →
          ¬ (jsTrim l).length < 100) →
        extractTitleFromContent content fileName parsed = fileName) := by
  refine ⟨?_, ?_, ?_, ?_, ?_, ?_⟩
  · intro g hg
    simp only [extractTitleFromContent, hg]
  · intro hhtml l hl
    simp only [extractTitleFromContent, hhtml, hl]
  · intro hhtml hmd t hc
    unfold commentTitleOf at hc
    cases hfind : (firstLines content).find?
        (fun l => hasMarker (l.data.map Char.toLower)) with
    | none => simp [hfind] at hc
    | some l =>
      simp only [hfind] at hc
      cases hcolon : findTitleColon l.data with
      | none => simp [hcolon] at hc
      | some g =>
        simp only [hcolon, Option.map_some'] at hc
        simp only [extractTitleFromContent, hhtml, hmd, hfind, hcolon]
        exact Option.some.inj hc
  · intro hhtml hmd hc t hj
    unfold commentTitleOf at hc
    cases hfind : (firstLines content).find?
        (fun l => hasMarker (l.data.map Char.toLower)) with
    | none =>
      simp only [extractTitleFromContent, titleJsonOnward, hhtml, hmd, hfind,
        hj]
    | some l =>
      simp only [hfind] at hc
      cases hcolon : findTitleColon l.data with
      | none =>
        simp only [extractTitleFromContent, titleJsonOnward, hhtml, hmd,
          hfind, hcolon, hj]
      | some g => simp [hcolon] at hc
  · intro hhtml hmd hc hj l hl hlen
    unfold commentTitleOf at hc
    cases hfind : (firstLines content).find?
        (fun l => hasMarker (l.data.map Char.toLower)) with
    | none =>
      simp only [extractTitleFromContent, titleJsonOnward, hhtml, hmd, hfind,
        hj, hl, if_pos hlen]
    | some l' =>
      simp only [hfind] at hc
      cases hcolon : findTitleColon l'.data with
      | none =>
        simp only [extractTitleFromContent, titleJsonOnward, hhtml, hmd,
          hfind, hcolon, hj, hl, if_pos hlen]
      | some g => simp [hcolon] at hc
  · intro hhtml hmd hc hj hbig
    unfold commentTitleOf at hc
    have hrest :
        (match (firstLines content).find? (fun l => 0 < (jsTrim l).length) with
          | some l => if (jsTrim l).length < 100 then jsTrim l else fileName
          | none => fileName) = fileName := by
      cases hfl : (firstLines content).find?
          (fun l => 0 < (jsTrim l).length) with
      | none => rfl
      | some l => simp [if_neg (hbig l hfl)]
    cases hfind : (firstLines content).find?
        (fun l => hasMarker (l.data.map Char.toLower)) with
    | none =>
      simp only [extractTitleFromContent, titleJsonOnward, hhtml, hmd, hfind,
        hj]
      exact hrest
    | some l' =>
      simp only [hfind] at hc
      cases hcolon : findTitleColon l'.data with
      | none =>
        simp only [extractTitleFromContent, titleJsonOnward, hhtml, hmd,
          hfind, hcolon, hj]
        exact hrest
      | some g => simp [hcolon] at hc

/-- C7 witness: on `"# Hi\nrest"` (no HTML title tag) the Markdown rule
fires and the derived title is `"Hi"`. -/
theorem C7_title_priority_witness :
    extractTitleFromContent "# Hi\nrest" "f.txt" none = mdStrip "# Hi" :=
  (C7_title_priority "# Hi\nrest" "f.txt" none).2.1 (by decide) "# Hi"
    (by decide)

/-! ## Claim C9 -/

/-- C9: `extractContent` is total (the outer try/catch of src/main.js
31-58 and the inner one of 60-84 convert every failure into a result
value), and for a text-extension file within the size ceiling a read that
fails with `EISDIR` (the path is a directory) yields the non-extractable
reason "Directory", while any other read failure yields the
non-extractable reason "Binary or encoding issue" (src/main.js 77-83). -/
theorem C9_read_failure_taxonomy (filePath : String) (size : Nat)
    (parsed : Option Jsonish) (stat : StatOutcome)
    (hext : jsToLower (extnameJs filePath) ∈ textExtensions)
    (hsize : size ≤ maxFileSize) :
    (extractContent filePath size .eisdir parsed stat).extractable = false
    ∧ (extractContent filePath size .eisdir parsed stat).reason = "Directory"
    ∧ (extractContent filePath size .failure parsed stat).extractable = false
    ∧ (extractContent filePath size .failure parsed stat).reason
        = "Binary or encoding issue" := by
  have hns : ¬ (maxFileSize < size) := not_lt.mpr hsize
  simp [extractContent, hns, hext, extractTextContent]

/-- C9 witness: a directory named `notes.txt` read as a text file. -/
theorem C9_read_failure_taxonomy_witness :
    (extractContent "notes.txt" 10 .eisdir none (.failure "")).reason
      = "Directory" :=
  (C9_read_failure_taxonomy "notes.txt" 10 none (.failure "") (by decide)
    (by decide)).2.1

/-! ## Claim C8 -/

/-- C8 counterexample: deleting a scanId that is absent from the catalog
does not produce a "not found" outcome — the `delete-scan` handler
(src/main.js 683-703) filters the (unchanged) lists and reports
`success: true` with `deletedCount: 0`. -/
theorem C8_deleteScan_reports_success :
    (deleteScanHandler 42 ⟨[], []⟩).2 = DeleteScanResult.ok 0 := by
  decide

/-- C8 (amended): `getFileDetails` on an unknown path does return the
typed not-found outcome (src/main.js 923-924), but `deleteScan` on an
unknown scanId returns the success outcome with `deletedCount` 0 and
leaves the catalog unchanged — it does not throw, and it does not report
"not found". -/
theorem C8_lookup_miss (scanId : Nat) (filePath : String) (db : DB)
    (hsid : ∀ s ∈ db.scans, s.id ≠ scanId)
    (hfid : ∀ f ∈ db.files, f.scanId ≠ scanId)
    (hpath : ∀ f ∈ db.files, f.path ≠ filePath) :
    (deleteScanHandler scanId db).2 = DeleteScanResult.ok 0
    ∧ (deleteScanHandler scanId db).1 = db
    ∧ getFileDetailsHandler filePath db
        = FileDetailsResult.notFound "File not found in database" := by
  have hfiles : db.files.filter (fun f => f.scanId ≠ scanId) = db.files := by
    apply List.filter_eq_self.mpr
    intro f hf
    exact decide_eq_true (hfid f hf)
  have hscans : db.scans.filter (fun s => s.id ≠ scanId) = db.scans := by
    apply List.filter_eq_self.mpr
    intro s hs
    exact decide_eq_true (hsid s hs)
  refine ⟨?_, ?_, ?_⟩
  · show DeleteScanResult.ok
        (db.files.length
          - (db.files.filter (fun f => f.scanId ≠ scanId)).length)
      = DeleteScanResult.ok 0
    rw [hfiles, Nat.sub_self]
  · show (⟨db.scans.filter (fun s => s.id ≠ scanId),
        db.files.filter (fun f => f.scanId ≠ scanId)⟩ : DB) = db
    rw [hfiles, hscans]
  · unfold getFileDetailsHandler
    have hnone : db.files.find? (fun f => f.path = filePath) = none := by
      apply List.find?_eq_none.mpr
      intro f hf
      simp [hpath f hf]
    rw [hnone]

/-- C8 witness: the empty catalog, scanId 42, path `D:\nope`. -/
theorem C8_lookup_miss_witness :
    (deleteScanHandler 42 ⟨[], []⟩).1 = (⟨[], []⟩ : DB)
      ∧ getFileDetailsHandler "D:\\nope" (⟨[], []⟩ : DB)
        = FileDetailsResult.notFound "File not found in database" :=
  ⟨(C8_lookup_miss 42 "D:\\nope" ⟨[], []⟩ (by simp) (by simp) (by simp)).2.1,
   (C8_lookup_miss 42 "D:\\nope" ⟨[], []⟩ (by simp) (by simp) (by simp)).2.2⟩

/-! ## Claims C6 and C10: comparator properties -/

theorem searchLe_trans (a b c : FileRecord × Nat)
    (h1 : searchLe a b = true) (h2 : searchLe b c = true) :
    searchLe a c = true := by
  unfold searchLe at h1 h2 ⊢
  by_cases hab : a.2 = b.2 <;> by_cases hbc : b.2 = c.2
  · rw [if_pos hab] at h1
    rw [if_pos hbc] at h2
    rw [if_pos (hab.trans hbc)]
    by_cases d1 : a.1.isDirectory = b.1.isDirectory <;>
      by_cases d2 : b.1.isDirectory = c.1.isDirectory
    · rw [if_pos d1] at h1
      rw [if_pos d2] at h2
      rw [if_pos (d1.trans d2)]
      exact decide_eq_true
        (le_trans (of_decide_eq_true h1) (of_decide_eq_true h2))
    · rw [if_pos d1] at h1
      rw [if_neg d2] at h2
      have haD : a.1.isDirectory = true := d1.trans h2
      have hd : ¬ a.1.isDirectory = c.1.isDirectory := by
        intro hacd
        exact d2 (d1.symm.trans hacd)
      rw [if_neg hd]
      exact haD
    · rw [if_neg d1] at h1
      have hd : ¬ a.1.isDirectory = c.1.isDirectory := by
        intro hacd
        exact d1 (hacd.trans d2.symm)
      rw [if_neg hd]
      exact h1
    · rw [if_neg d1] at h1
      rw [if_neg d2] at h2
      exact absurd (h1.trans h2.symm) d1
  · rw [if_pos hab] at h1
    rw [if_neg hbc] at h2
    have hcb := of_decide_eq_true h2
    have hac : ¬ a.2 = c.2 := by omega
    rw [if_neg hac]
    exact decide_eq_true (by omega)
  · rw [if_neg hab] at h1
    rw [if_pos hbc] at h2
    have hba := of_decide_eq_true h1
    have hac : ¬ a.2 = c.2 := by omega
    rw [if_neg hac]
    exact decide_eq_true (by omega)
  · rw [if_neg hab] at h1
    rw [if_neg hbc] at h2
    have hba := of_decide_eq_true h1
    have hcb := of_decide_eq_true h2
    have hac : ¬ a.2 = c.2 := by omega
    rw [if_neg hac]
    exact decide_eq_true (by omega)

theorem searchLe_total (a b : FileRecord × Nat) :
    (searchLe a b || searchLe b a) = true := by
  unfold searchLe
  by_cases hab : a.2 = b.2
  · rw [if_pos hab, if_pos hab.symm]
    by_cases d1 : a.1.isDirectory = b.1.isDirectory
    · rw [if_pos d1, if_pos d1.symm]
      rcases le_total a.1.name b.1.name with h | h <;> simp [h]
    · rw [if_neg d1, if_neg (fun hh => d1 hh.symm)]
      cases ha : a.1.isDirectory
      · cases hb : b.1.isDirectory
        · exact absurd (ha.trans hb.symm) d1
        · simp
      · simp
  · rw [if_neg hab, if_neg (fun hh => hab hh.symm)]
    rcases Nat.le_total a.2 b.2 with h | h <;> simp [h]

theorem tripleLe_trans (a b c : Nat × FileRecord × Nat)
    (h1 : tripleLe a b = true) (h2 : tripleLe b c = true) :
    tripleLe a c = true :=
  searchLe_trans _ _ _ h1 h2

theorem tripleLe_total (a b : Nat × FileRecord × Nat) :
    (tripleLe a b || tripleLe b a) = true :=
  searchLe_total _ _

/-- The ranking relation the spec states: relevance score descending,
then directories before files, then name ascending. -/
def rankedBefore (a b : FileRecord × Nat) : Prop :=
  b.2 ≤ a.2
  ∧ (a.2 = b.2 →
      (b.1.isDirectory = true → a.1.isDirectory = true)
      ∧ (a.1.isDirectory = b.1.isDirectory → a.1.name ≤ b.1.name))

theorem rankedBefore_of_searchLe (a b : FileRecord × Nat)
    (h : searchLe a b = true) : rankedBefore a b := by
  unfold searchLe at h
  by_cases hab : a.2 = b.2
  · rw [if_pos hab] at h
    refine ⟨le_of_eq hab.symm, fun _ => ?_⟩
    by_cases d1 : a.1.isDirectory = b.1.isDirectory
    · rw [if_pos d1] at h
      exact ⟨fun hb => d1.trans hb, fun _ => of_decide_eq_true h⟩
    · rw [if_neg d1] at h
      exact ⟨fun _ => h, fun hd => absurd hd d1⟩
  · rw [if_neg hab] at h
    exact ⟨of_decide_eq_true h, fun he => absurd he hab⟩

theorem pairwise_take_mergeSort (l : List (Nat × FileRecord × Nat))
    (n : Nat) :
    (((l.mergeSort tripleLe).take n).map (fun x => x.2)).Pairwise
      rankedBefore := by
  have hs := List.sorted_mergeSort tripleLe_trans tripleLe_total l
  have ht : ((l.mergeSort tripleLe).take n).Pairwise
      (fun x y => tripleLe x y = true) :=
    List.Pairwise.sublist (List.take_sublist n _) hs
  rw [List.pairwise_map]
  exact ht.imp (fun h => rankedBefore_of_searchLe _ _ h)

/-- C6: the search result list is sorted by relevance score descending,
then directories before files, then name ascending (`localeCompare`
modelled by the string order), and holds at most `limit` elements, the
limit defaulting to 1000 when absent (src/main.js 392-406, 347). -/
theorem C6_sorted_and_truncated (query : String) (opts : Option Nat)
    (db : DB) :
    ((searchFiles query opts db).map (fun x => x.2)).Pairwise rankedBefore
    ∧ (searchFiles query opts db).length ≤ resolveLimit opts
    ∧ (opts = none → (searchFiles query opts db).length ≤ 1000) := by
  by_cases hq : query.length < 2
  · simp [searchFiles, hq]
  · simp only [searchFiles, if_neg hq]
    refine ⟨pairwise_take_mergeSort _ _, List.length_take_le _ _, fun ho => ?_⟩
    subst ho
    exact List.length_take_le _ _

/-- C6 witness: with no explicit limit the result holds at most 1000
entries. -/
theorem C6_sorted_and_truncated_witness :
    (searchFiles "hello" none dbRetention).length ≤ 1000 :=
  (C6_sorted_and_truncated "hello" none dbRetention).2.2 rfl

/-! ## Claim C10: candidate-set deduplication -/

theorem setAdd_nodup {s : List Nat} (i : Nat) (h : s.Nodup) :
    (setAdd s i).Nodup := by
  unfold setAdd
  split
  · exact h
  · rename_i hni
    rw [List.nodup_append]
    exact ⟨h, List.nodup_singleton i, by simpa [List.disjoint_singleton] using hni⟩

theorem foldl_setAdd_nodup (xs : List Nat) {s : List Nat} (h : s.Nodup) :
    (xs.foldl setAdd s).Nodup := by
  induction xs generalizing s with
  | nil => exact h
  | cons x xs ih => exact ih (setAdd_nodup x h)

theorem foldl_condStep_nodup {κ : Type} (entries : List (κ × List Nat))
    (p : κ × List Nat → Prop) [DecidablePred p] {s : List Nat}
    (h : s.Nodup) :
    (entries.foldl
      (fun acc kv => if p kv then kv.2.foldl setAdd acc else acc) s).Nodup := by
  induction entries generalizing s with
  | nil => exact h
  | cons kv rest ih =>
    simp only [List.foldl_cons]
    apply ih
    split
    · exact foldl_setAdd_nodup _ h
    · exact h

theorem searchInIndex_nodup (q : String) (m : PostingMap String)
    {s : List Nat} (h : s.Nodup) : (searchInIndex q m s).Nodup := by
  unfold searchInIndex
  apply foldl_condStep_nodup
  cases idxLookup m q with
  | some t => exact foldl_setAdd_nodup t h
  | none => exact h

theorem searchCandidates_nodup (q : String) (idxs : Indexes) :
    (searchCandidates q idxs).Nodup := by
  unfold searchCandidates
  split
  · cases idxLookup idxs.extensionIndex q with
    | some t => exact foldl_setAdd_nodup t List.nodup_nil
    | none => exact List.nodup_nil
  · apply foldl_condStep_nodup
    exact searchInIndex_nodup q idxs.contentIndex
      (searchInIndex_nodup q idxs.titleIndex
        (searchInIndex_nodup q idxs.nameIndex List.nodup_nil))

theorem nodup_take_mergeSort_map (cands : List Nat)
    (g : Nat → Nat × FileRecord × Nat) (hg : ∀ i, (g i).1 = i)
    (n : Nat) (hc : cands.Nodup) :
    ((((cands.map g).mergeSort tripleLe).take n).map (fun x => x.1)).Nodup := by
  have hscored : ((cands.map g).map (fun x => x.1)).Nodup := by
    rw [List.map_map]
    have hcomp : ((fun x : Nat × FileRecord × Nat => x.1) ∘ g)
        = fun i => i := funext fun i => hg i
    rw [hcomp]
    simpa using hc
  have hperm := (List.mergeSort_perm (cands.map g) tripleLe).map
    (fun x : Nat × FileRecord × Nat => x.1)
  have hms := hperm.nodup_iff.mpr hscored
  exact List.Nodup.sublist
    (List.Sublist.map (fun x : Nat × FileRecord × Nat => x.1)
      (List.take_sublist n _)) hms

/-- C10: a record ordinal occurs at most once in a search result, even
when it matched through several of the name/title/content/path indexes —
the candidate collector is a `Set` (src/main.js 345, 353, 357-369), and
sorting and truncation preserve distinctness. -/
theorem C10_results_nodup (query : String) (opts : Option Nat) (db : DB) :
    ((searchFiles query opts db).map (fun x => x.1)).Nodup := by
  by_cases hq : query.length < 2
  · simp [searchFiles, hq]
  · simp only [searchFiles, if_neg hq]
    exact nodup_take_mergeSort_map _ _ (fun i => rfl) _
      (searchCandidates_nodup _ _)
